import Mathlib

/-!
# A shallow embedding of coreth's atomic-transaction and block-lifecycle core

This file embeds, in Lean 4, the two source files of the repository that the
claims concern:

* `src/unnamed/part_000` — the `UnsignedExportTx` type with its `Verify`,
  `SemanticVerify`, `EVMStateTransfer` and the `VM.newExportTx` constructor;
* `src/plugin/evm/block.go` — the `Block` lifecycle (`Accept`, `Verify` with
  its ancestor conflict scan, `Status`, `Parent`).

Conventions of the embedding:

* Machine integers (`uint64` amounts and nonces) are `Nat`; the one place the
  Go code can wrap (`SetNonce(nonce+1)`) and the one place it checks 64-bit
  overflow (`safemath.Add64`) carry an explicit `% 2 ^ 64` / `< 2 ^ 64`.
  EVM balances are go-ethereum `big.Int`s, hence plain `Nat`.
* 32-byte ids (`ids.ID`, block hashes, asset ids) are indexed by `Nat`; where
  their raw bytes matter (the acceptance index) the fixed 32-byte big-endian
  serialization is spelled out.
* `ids.Set` is `Finset Nat`.
* Code of the repository that is *not* under `src/` (the `VM` helper methods,
  `EVMInput.Verify`, the import transaction's own methods) and external
  collaborators (crypto recovery, the codec, shared memory, the EVM processor)
  are modelled as explicit parameters or as fields, each documented at its
  declaration.
* Go runtime panics (failed type assertions, out-of-range indexing) are a
  distinguished `panicked` outcome, never an error return.
-/

/-- Status of a block for the consensus host, mirroring
`avalanchego/snow/choices.Status`. -/
inductive BlockStatus where
  | Unknown
  | Processing
  | Rejected
  | Accepted
deriving DecidableEq, Repr

/-- An EVM-side input of an export transaction. Modelled from the spec:
the `EVMInput` struct itself is not under `src/` (only its uses are); §3 of
the spec gives its fields `(address, assetID, amount, nonce)`. -/
structure EVMInput where
  address : Nat
  amount : Nat
  assetID : Nat
  nonce : Nat
deriving DecidableEq, Repr

/-- A transferable UTXO-side output, an external `avax` value object. The
spec's §4.1 reduces what the code uses of it to: a per-output `Verify`,
an `(assetID, amount)` pair, and its canonical codec serialization (the sort
key). `serialBytes` stands for `Codec.Marshal` of the output and `verifyOk`
for the external `out.Verify()` verdict. -/
structure TransferableOutput where
  assetID : Nat
  amount : Nat
  serialBytes : List Nat
  verifyOk : Bool
deriving DecidableEq, Repr

/-- The unsigned export transaction of `src/unnamed/part_000` lines 23-38.
`unsignedBytes` models the `avax.Metadata` canonical serialization of the
unsigned body (the bytes signatures commit to), produced by the external
codec. -/
structure UnsignedExportTx where
  syntacticallyVerified : Bool
  networkID : Nat
  blockchainID : Nat
  destinationChain : Nat
  ins : List EVMInput
  exportedOutputs : List TransferableOutput
  unsignedBytes : List Nat
deriving DecidableEq, Repr

/-- A secp256k1fx credential of the signed wrapper: one external `Verify`
verdict and the signature list `Sigs` (each signature abstracted to a `Nat`).
The code reads `Sigs[0]`, which panics in Go when the list is empty. -/
structure Credential where
  verifyOk : Bool
  sigs : List Nat
deriving DecidableEq, Repr

/-- The external SECP256K1 primitives used by `SemanticVerify`:
`RecoverPublicKey` over (unsigned bytes, signature), `none` standing for a
recovery error, and the public-key-to-EVM-address map. -/
structure CryptoModel where
  recoverPublicKey : List Nat → Nat → Option Nat
  publicKeyToEthAddress : Nat → Nat

/-- The subset of `*VM` / `*snow.Context` configuration `part_000` reads:
the X-chain id, the network id, this chain's id, the tx fee and the native
(AVAX) asset id. -/
structure VMCtx where
  xChainID : Nat
  networkID : Nat
  chainID : Nat
  txFee : Nat
  avaxAssetID : Nat
deriving DecidableEq, Repr

/-- Errors of the export-transaction pipeline. Constructors collapse the
distinct underlying Go error values; what matters to the claims is which
check produced them. `inputInvalid` / `outputInvalid` stand for whatever
error the external `in.Verify()` / `out.Verify()` returned. -/
inductive TxVerifyErr where
  | nilTx
  | wrongChainID
  | noExportOutputs
  | wrongNetworkID
  | wrongBlockchainID
  | inputInvalid
  | outputInvalid
  | outputsNotSorted
deriving DecidableEq, Repr

/-- Lexicographic byte-string comparison (`bytes.Compare _ _ <= 0`), the
canonical sort predicate of the external codec over serialized outputs. -/
def lexLe : List Nat → List Nat → Bool
  | [], _ => true
  | _ :: _, [] => false
  | a :: as, b :: bs => if a < b then true else if b < a then false else lexLe as bs

/-- The external `avax.IsSortedTransferableOutputs(outs, Codec)`: adjacent
outputs compare `<=` by their codec serialization. -/
def isSortedOutputs : List TransferableOutput → Bool
  | [] => true
  | [_] => true
  | a :: b :: rest => lexLe a.serialBytes b.serialBytes && isSortedOutputs (b :: rest)

/-- `UnsignedExportTx.Verify` (`src/unnamed/part_000` lines 44-84). The
receiver may be nil (`none`). `ivOk` is the external `EVMInput.Verify`
(that method's body is not under `src/`). The Go code takes `feeAmount` and
`feeAssetID` but reads neither; they are kept for the call shape. On success
the Go code marks `syntacticallyVerified`; the marking itself is invisible to
the claims, while the short-circuit on an already-marked transaction is the
second case below. -/
def exportTxVerify (ivOk : EVMInput → Bool) (txo : Option UnsignedExportTx)
    (avmID : Nat) (ctxNetworkID : Nat) (ctxChainID : Nat)
    (_feeAmount : Nat) (_feeAssetID : Nat) : Option TxVerifyErr :=
  match txo with
  | none => some .nilTx
  | some tx =>
    if tx.syntacticallyVerified then none
    else if tx.destinationChain = 0 then some .wrongChainID
    else if ¬ tx.destinationChain = avmID then some .wrongChainID
    else if tx.exportedOutputs.length = 0 then some .noExportOutputs
    else if ¬ tx.networkID = ctxNetworkID then some .wrongNetworkID
    else if ¬ ctxChainID = tx.blockchainID then some .wrongBlockchainID
    else if ¬ tx.ins.all ivOk then some .inputInvalid
    else if ¬ tx.exportedOutputs.all (fun o => o.verifyOk) then some .outputInvalid
    else if ¬ isSortedOutputs tx.exportedOutputs then some .outputsNotSorted
    else none

/-- Result of `SemanticVerify`: success, a permanent error (every return in
the export path wraps `permError`), or a Go runtime panic. -/
inductive SemErr where
  | syntactic (e : TxVerifyErr)
  | credentialInvalid
  | recoverFailed
  | pubKeyMismatch
  | flowFailed
deriving DecidableEq, Repr

inductive SemResult where
  | ok
  | permErr (e : SemErr)
  | panicked
deriving DecidableEq, Repr

/-- The credential loop of `SemanticVerify` (`src/unnamed/part_000` lines
95-107): for the i-th credential, `cred.Verify()`, then
`RecoverPublicKey(unsignedBytes, cred.Sigs[0])` (indexing `Sigs[0]` panics on
an empty signature list), then the indexing `tx.Ins[i]` (panics out of
range), then the address comparison. `none` means the loop ran off the end
of the credential list without an early return. -/
def semCredLoop (cm : CryptoModel) (ub : List Nat) (ins : List EVMInput) :
    List Credential → Nat → Option SemResult
  | [], _ => none
  | c :: rest, i =>
    if c.verifyOk = false then some (.permErr .credentialInvalid)
    else
      match c.sigs.head? with
      | none => some .panicked
      | some sg =>
        match cm.recoverPublicKey ub sg with
        | none => some (.permErr .recoverFailed)
        | some pk =>
          match ins[i]? with
          | none => some .panicked
          | some inp =>
            if inp.address = cm.publicKeyToEthAddress pk then
              semCredLoop cm ub ins rest (i + 1)
            else some (.permErr .pubKeyMismatch)

/-- Per-asset amount total of a produce/consume list, for the flow checker. -/
def sumFor (l : List (Nat × Nat)) (a : Nat) : Nat :=
  (l.filter (fun p => p.1 == a)).foldr (fun p acc => p.2 + acc) 0

/-- The external `avax.FlowChecker` round of `SemanticVerify` (lines
109-123): produce the fee (of the fee asset) and every exported output,
consume every input, and verify that no asset is net-produced. -/
def flowOkB (avaxAssetID txFee : Nat) (tx : UnsignedExportTx) : Bool :=
  let produced := (avaxAssetID, txFee) :: tx.exportedOutputs.map (fun o => (o.assetID, o.amount))
  let consumed := tx.ins.map (fun i => (i.assetID, i.amount))
  produced.all (fun p => decide (sumFor produced p.1 ≤ sumFor consumed p.1))

/-- `UnsignedExportTx.SemanticVerify` (`src/unnamed/part_000` lines 87-127):
syntactic `Verify` first (an error becomes a permanent error), then the
credential loop over the signed wrapper's `Creds`, then flow checking. -/
def exportSemanticVerify (cm : CryptoModel) (ivOk : EVMInput → Bool)
    (ctx : VMCtx) (tx : UnsignedExportTx) (creds : List Credential) : SemResult :=
  match exportTxVerify ivOk (some tx) ctx.xChainID ctx.networkID ctx.chainID
      ctx.txFee ctx.avaxAssetID with
  | some e => .permErr (.syntactic e)
  | none =>
    match semCredLoop cm tx.unsignedBytes tx.ins creds 0 with
    | some r => r
    | none =>
      if flowOkB ctx.avaxAssetID ctx.txFee tx then .ok
      else .permErr .flowFailed

/-! ## EVM state and `EVMStateTransfer` -/

/-- An EVM account as the `state.StateDB` exposes it to `part_000`:
unbounded base balance, uint64 nonce, and the per-asset multi-coin
sub-balances. -/
structure ExAccount where
  balance : Nat
  nonce : Nat
  multiCoin : Nat → Nat

/-- The EVM world state: accounts by address. -/
def StateDB : Type := Nat → ExAccount

def getBalance (s : StateDB) (a : Nat) : Nat := (s a).balance

def getBalanceMultiCoin (s : StateDB) (a asset : Nat) : Nat := (s a).multiCoin asset

def getNonce (s : StateDB) (a : Nat) : Nat := (s a).nonce

def updAccount (s : StateDB) (a : Nat) (f : ExAccount → ExAccount) : StateDB :=
  fun x => if x = a then f (s x) else s x

def subBalance (s : StateDB) (a amt : Nat) : StateDB :=
  updAccount s a (fun acc => { acc with balance := acc.balance - amt })

def subBalanceMultiCoin (s : StateDB) (a asset amt : Nat) : StateDB :=
  updAccount s a (fun acc =>
    { acc with multiCoin := fun k => if k = asset then acc.multiCoin asset - amt else acc.multiCoin k })

def setNonce (s : StateDB) (a n : Nat) : StateDB :=
  updAccount s a (fun acc => { acc with nonce := n })

/-- Errors of `EVMStateTransfer` and `VM.newExportTx`. `spendFailed` and
`signFailed` stand for the wrapped errors of the external
`GetSpendableCanonical` and `tx.Sign` calls; `fromVerify` embeds the error
`newExportTx` returns from the final `utx.Verify`. -/
inductive TxErr where
  | insufficientFunds
  | invalidNonce
  | overflowExport
  | wrongChainID
  | spendFailed
  | signFailed
  | fromVerify (e : TxVerifyErr)
deriving DecidableEq, Repr

/-- `UnsignedExportTx.EVMStateTransfer` (`src/unnamed/part_000` lines
226-249), one recursion step per input, in declaration order. `x2cRate` is
the repository's fixed conversion constant; its definition is not under
`src/`, so it is a parameter here (modelled from the spec: a fixed positive
integer scaling factor). The multiplication `amount * rate` is go-ethereum
`big.Int` arithmetic, hence plain `Nat`: it has no overflow. The Go code
mutates the `StateDB` in place, so an error return carries the partially
mutated state (the balance already debited when the nonce check fails);
`SetNonce(from.Nonce+1)` wraps at 64 bits. -/
def evmStateTransfer (avaxAssetID rate : Nat) :
    StateDB → List EVMInput → Option TxErr × StateDB
  | s, [] => (none, s)
  | s, inp :: rest =>
    let amount := inp.amount * rate
    if inp.assetID = avaxAssetID then
      if getBalance s inp.address < amount then (some .insufficientFunds, s)
      else
        let s1 := subBalance s inp.address amount
        if ¬ getNonce s1 inp.address = inp.nonce then (some .invalidNonce, s1)
        else evmStateTransfer avaxAssetID rate
          (setNonce s1 inp.address ((inp.nonce + 1) % 2 ^ 64)) rest
    else
      if getBalanceMultiCoin s inp.address inp.assetID < amount then (some .insufficientFunds, s)
      else
        let s1 := subBalanceMultiCoin s inp.address inp.assetID amount
        if ¬ getNonce s1 inp.address = inp.nonce then (some .invalidNonce, s1)
        else evmStateTransfer avaxAssetID rate
          (setNonce s1 inp.address ((inp.nonce + 1) % 2 ^ 64)) rest

/-- The debit an input causes, as the spec words it: `amount * x2cRate` off
the base balance when the asset is native, off that asset's multi-coin
sub-balance otherwise. -/
def debitInput (avaxAssetID rate : Nat) (s : StateDB) (inp : EVMInput) : StateDB :=
  if inp.assetID = avaxAssetID then subBalance s inp.address (inp.amount * rate)
  else subBalanceMultiCoin s inp.address inp.assetID (inp.amount * rate)

/-- The balance the transfer draws on for a given (address, asset) pair:
the base balance for the native asset, the multi-coin sub-balance otherwise. -/
def assetBalance (avaxAssetID : Nat) (s : StateDB) (a asset : Nat) : Nat :=
  if asset = avaxAssetID then getBalance s a else getBalanceMultiCoin s a asset

/-- The spec's wording of the per-input export transfer (claim C4 / spec
§4.2 rule 5): process inputs in declaration order; a shortfall of
`amount * x2cRate` on the drawn balance is `insufficientFunds`; a nonce
differing from the account's current nonce is `invalidNonce`; otherwise
debit exactly `amount * x2cRate` and bump the nonce to `nonce + 1` (uint64). -/
def specExportTransfer (avaxAssetID rate : Nat) :
    StateDB → List EVMInput → Option TxErr × StateDB
  | s, [] => (none, s)
  | s, inp :: rest =>
    if assetBalance avaxAssetID s inp.address inp.assetID < inp.amount * rate then
      (some .insufficientFunds, s)
    else if ¬ getNonce s inp.address = inp.nonce then (some .invalidNonce, s)
    else specExportTransfer avaxAssetID rate
      (setNonce (debitInput avaxAssetID rate s inp) inp.address ((inp.nonce + 1) % 2 ^ 64)) rest

/-- The tail of `VM.newExportTx` (`src/unnamed/part_000` lines 219-223)
once the transaction is assembled: `tx.Sign` (external; `signOk` its
verdict), then the final `utx.Verify` whose error the function returns
alongside the transaction; a non-nil final error is `.error (.fromVerify e)`. -/
def finishExportTx (ivOk : EVMInput → Bool) (ctx : VMCtx) (signOk : Bool)
    (utx : UnsignedExportTx) : Except TxErr UnsignedExportTx :=
  if signOk = false then .error .signFailed
  else
    match exportTxVerify ivOk (some utx) ctx.xChainID ctx.networkID
        ctx.chainID ctx.txFee ctx.avaxAssetID with
    | some e => .error (.fromVerify e)
    | none => .ok utx

/-- `VM.newExportTx` (`src/unnamed/part_000` lines 164-224). External
pieces as parameters: `spend` is `GetSpendableCanonical` (`none` = its
error), `signOk` the `tx.Sign` verdict, `outSer`/`ub` the codec
serializations of the built output and unsigned body, `ivOk` as in
`exportTxVerify`. The `safemath.Add64(amount, vm.txFee)` of lines 177-181
is the explicit 64-bit overflow check; on overflow the function returns
`errOverflowExport`. -/
def newExportTx (ctx : VMCtx) (spend : Nat → Nat → Option (List EVMInput))
    (signOk : Bool) (ivOk : EVMInput → Bool) (outSer ub : List Nat)
    (assetID amount chainID _toAddr : Nat) : Except TxErr UnsignedExportTx :=
  if ¬ ctx.xChainID = chainID then .error .wrongChainID
  else
    match (if assetID = ctx.avaxAssetID then
            (if amount + ctx.txFee < 2 ^ 64 then some (amount + ctx.txFee) else none)
           else some ctx.txFee) with
    | none => .error .overflowExport
    | some toBurn =>
      match spend ctx.avaxAssetID toBurn with
      | none => .error .spendFailed
      | some ins1 =>
        match (if assetID = ctx.avaxAssetID then some ins1
               else match spend assetID amount with
                    | none => none
                    | some ins2 => some (ins1 ++ ins2)) with
        | none => .error .spendFailed
        | some ins =>
          finishExportTx ivOk ctx signOk
            { syntacticallyVerified := false
              networkID := ctx.networkID
              blockchainID := ctx.chainID
              destinationChain := chainID
              ins := ins
              exportedOutputs := [{ assetID := assetID, amount := amount,
                                    serialBytes := outSer, verifyOk := true }]
              unsignedBytes := ub }

/-! ## The block lifecycle (`src/plugin/evm/block.go`) -/

/-- The atomic transaction a block can carry. The registered variants are
the import and the export kinds (`block.go` lines 108-145 switch on them).
An import transaction's `InputUTXOs()` returns the ids of its
`ImportedInputs`; that struct is not under `src/`, so the import variant is
modelled from the spec by the id set it consumes. -/
inductive AtomicTx where
  | importTx (utxos : Finset Nat)
  | exportTx (tx : UnsignedExportTx)
deriving DecidableEq

/-- `InputUTXOs()` of the variants: the import's consumed set; the export
returns the empty set (`src/unnamed/part_000` line 41). -/
def atomicInputUTXOs : AtomicTx → Finset Nat
  | .importTx utxos => utxos
  | .exportTx _ => ∅

/-- What `block.go` reads of an `ethBlock`, plus the atomic transaction the
VM's `getAtomicTx` extracts from the block's envelope (spec §6: the atomic
tx travels as structured extra data inside the eth block). `hash` doubles as
the wrapping `Block`'s id (spec §3: the id is derived from the hash of
`ethBlock`), `height` is `Number()`, `txGasPrices` the gas prices of the
ordinary EVM transactions. -/
structure EthBlock where
  hash : Nat
  parentHash : Nat
  height : Nat
  txGasPrices : List Nat
  atomicTx : Option AtomicTx
deriving DecidableEq

/-- First-match association-list lookup, the model of every keyed map here. -/
def lookupA {β : Type} (l : List (Nat × β)) (k : Nat) : Option β :=
  match l with
  | [] => none
  | p :: rest => if p.1 = k then some p.2 else lookupA rest k

/-- Byte-string-keyed association-list lookup, for the acceptance index. -/
def lookupDB (l : List (List Nat × List Nat)) (k : List Nat) : Option (List Nat) :=
  match l with
  | [] => none
  | p :: rest => if p.1 = k then some p.2 else lookupDB rest k

/-- The VM-side state `block.go` touches. The helper methods living on `*VM`
are not under `src/`, so the containers are modelled from the spec (§3
"Caches", "Persisted acceptance index"): `blocks` backs `vm.getBlock`
(block id → block), `statusCache` backs `vm.updateStatus` /
`vm.getCachedStatus`, `atomicInputCache` is `vm.blockAtomicInputCache`
(block id → cumulative consumed-input set), `acceptedDB` the persisted
`height bytes → id bytes` index, `genesisHash` is `vm.genesisHash` and
`bootstrapped` the `vm.ctx.IsBootstrapped()` flag. LRU eviction is an
optimization the claims do not touch and is not modelled: entries persist
until overwritten. -/
structure VMState where
  blocks : List (Nat × EthBlock)
  statusCache : List (Nat × BlockStatus)
  atomicInputCache : List (Nat × Finset Nat)
  acceptedDB : List (List Nat × List Nat)
  genesisHash : Nat
  bootstrapped : Bool

def lookupBlock (vm : VMState) (h : Nat) : Option EthBlock := lookupA vm.blocks h

def cacheLookup (vm : VMState) (h : Nat) : Option (Finset Nat) :=
  lookupA vm.atomicInputCache h

def cachePut (vm : VMState) (h : Nat) (s : Finset Nat) : VMState :=
  { vm with atomicInputCache := (h, s) :: vm.atomicInputCache }

/-- `vm.updateStatus`: record a decision in the status cache. Modelled from
the spec (§3: status cache blockID → Status). -/
def updateStatus (vm : VMState) (h : Nat) (st : BlockStatus) : VMState :=
  { vm with statusCache := (h, st) :: vm.statusCache }

/-- `vm.getCachedStatus`: the cache's answer, `Unknown` on a miss. -/
def getCachedStatus (vm : VMState) (h : Nat) : BlockStatus :=
  (lookupA vm.statusCache h).getD .Unknown

/-- `Block.Status()` (`block.go` lines 67-73) for a block the VM knows (its
`ethBlock` is present): the cached status, or `Processing` when the cache
says `Unknown`. -/
def blockStatus (vm : VMState) (h : Nat) : BlockStatus :=
  let st := getCachedStatus vm h
  if st = .Unknown then .Processing else st

/-- The external results `Block.Verify`/`Block.Accept` depend on, plus the
chain parameter `params.MinGasPrice`: `blockStateOk` is the
`vm.chain.BlockState(parent)` call, `semOk` the atomic transaction's
`SemanticVerify` (for an import that method is not under `src/`; either way
only its success is consumed here), `processOk` the EVM
`Processor().Process` run, `insertOk` `vm.chain.InsertChain`, `dbPutOk` the
`vm.acceptedDB.Put` write and `atomicAcceptOk` the shared-memory side of
`utx.Accept`. -/
structure Externals where
  minGasPrice : Nat
  blockStateOk : Bool
  semOk : Bool
  processOk : Bool
  insertOk : Bool
  dbPutOk : Bool
  atomicAcceptOk : Bool
deriving DecidableEq

inductive VerifyErr where
  | insufficientGasPrice
  | atomicInputConflict
  | blockStateErr
  | semanticErr
  | processErr
  | insertErr
deriving DecidableEq, Repr

/-- Outcome of `Block.Verify`: success, an error, the Go panic of a failed
`.(*Block)` type assertion on a missing parent, or exhaustion of the fuel
that stands in for the unbounded ancestor walk. -/
inductive VerifyResult where
  | ok
  | err (e : VerifyErr)
  | panicked
  | outOfFuel
deriving DecidableEq, Repr

/-- Outcome of the first loop of the conflict scan: the walked path with the
seed input set (and the id of the cache-hit block, if the walk stopped on a
hit — the Go code aliases `inputs` to that resident set, so the entry is
mutated in place by the second loop; the alias's final value is written back
after the accumulation below). -/
inductive WalkOutcome where
  | stopped (path : List EthBlock) (seed : Finset Nat) (hit : Option Nat)
  | panicked
  | outOfFuel
deriving DecidableEq

/-- The first loop of the conflict scan (`block.go` lines 113-126): walk
parent-wards from the verified block's parent, stopping on an Accepted
status, the genesis hash, or a resident ancestor-input cache entry (which
seeds `inputs`); otherwise append the block to `path` and step to its
parent, panicking (`p.Parent().(*Block)`, line 125) when that parent is not
in the VM's block map. `fuel` bounds the walk: the Go loop has no bound of
its own, and a configuration that exhausts any fuel is one on which the Go
loop does not terminate either. -/
def walkLoop (vm : VMState) : Nat → EthBlock → List EthBlock → WalkOutcome
  | 0, _, _ => .outOfFuel
  | fuel + 1, p, path =>
    if blockStatus vm p.hash = .Accepted ∨ p.hash = vm.genesisHash then
      .stopped path ∅ none
    else
      match cacheLookup vm p.hash with
      | some s => .stopped path s (some p.hash)
      | none =>
        match lookupBlock vm p.parentHash with
        | some q => walkLoop vm fuel q (path ++ [p])
        | none => .panicked

/-- The second loop of the conflict scan (`block.go` lines 127-136),
processing `path` from its far end (the list passed here is already
reversed): when the stop carries an atomic transaction, union its
`InputUTXOs()` into `inputs` and memoize a copy of the grown set under the
stop's id; when it does not, `inputsCopy` is left as the fresh empty set and
that empty set is memoized. -/
def accumulateLoop : VMState → List EthBlock → Finset Nat → Finset Nat × VMState
  | vm, [], inputs => (inputs, vm)
  | vm, p :: rest, inputs =>
    match p.atomicTx with
    | some atx =>
      let inputs2 := inputs ∪ atomicInputUTXOs atx
      accumulateLoop (cachePut vm p.hash inputs2) rest inputs2
    | none => accumulateLoop (cachePut vm p.hash ∅) rest inputs

/-- The tail of `Block.Verify`'s atomic section (lines 147-158):
`SemanticVerify`, then the EVM processor against the parent state, then
`InsertChain`; each failure is wrapped into its own error. -/
def tailResult (ext : Externals) : VerifyResult :=
  if ext.semOk = false then .err .semanticErr
  else if ext.processOk = false then .err .processErr
  else if ext.insertOk = false then .err .insertErr
  else .ok

/-- `Block.Verify` (`block.go` lines 90-159). In order: the minimum-gas-price
gate (only once bootstrapped); if an atomic transaction is attached, the
`b.Parent().(*Block)` cast plus `BlockState` load (line 104 — the cast
panics when the parent is missing), then the per-variant switch: an import
carried by the genesis block returns nil immediately, any other import runs
the conflict scan and signals `errAtomicInputConflict` on overlap; then
`SemanticVerify`, the EVM processor and `InsertChain`. A block without an
atomic transaction goes to `InsertChain` directly. -/
def blockVerify (ext : Externals) (vm : VMState) (fuel : Nat) (b : EthBlock) :
    VerifyResult × VMState :=
  if vm.bootstrapped && b.txGasPrices.any (fun g => decide (g < ext.minGasPrice)) then
    (.err .insufficientGasPrice, vm)
  else
    match b.atomicTx with
    | none => (if ext.insertOk = false then .err .insertErr else .ok, vm)
    | some tx =>
      match lookupBlock vm b.parentHash with
      | none => (.panicked, vm)
      | some _parent =>
        if ext.blockStateOk = false then (.err .blockStateErr, vm)
        else
          match tx with
          | .importTx utxos =>
            if b.hash = vm.genesisHash then (.ok, vm)
            else
              match lookupBlock vm b.parentHash with
              | none => (.panicked, vm)
              | some parent =>
                match walkLoop vm fuel parent [] with
                | .outOfFuel => (.outOfFuel, vm)
                | .panicked => (.panicked, vm)
                | .stopped path seed hit =>
                  let acc := accumulateLoop vm path.reverse seed
                  let vm2 := match hit with
                    | some x => cachePut acc.2 x acc.1
                    | none => acc.2
                  if utxos ∩ acc.1 = ∅ then (tailResult ext, vm2)
                  else (.err .atomicInputConflict, vm2)
          | .exportTx _ => (tailResult ext, vm)

/-- Little-endian fixed-width byte decomposition, helper for `beBytes`. -/
def leBytes : Nat → Nat → List Nat
  | 0, _ => []
  | w + 1, n => n % 256 :: leBytes w (n / 256)

/-- Fixed-width big-endian bytes: `beBytes 32 id` models the raw 32 bytes of
an `ids.ID` (`b.id[:]`). -/
def beBytes (w n : Nat) : List Nat := (leBytes w n).reverse

/-- Minimal big-endian bytes, the model of go-ethereum `big.Int.Bytes()`:
the absolute value without leading zeros, the empty slice for zero. The
first argument is fuel for the division recursion; `n` itself always
suffices, since the byte length of `n` is at most `n`. -/
def minBEbytesAux : Nat → Nat → List Nat
  | 0, _ => []
  | fuel + 1, n => if n = 0 then [] else minBEbytesAux fuel (n / 256) ++ [n % 256]

/-- `big.Int.Bytes()` of a height: minimal big-endian, empty for height 0. -/
def minBEbytes (n : Nat) : List Nat := minBEbytesAux n n

def dbPut (vm : VMState) (k v : List Nat) : VMState :=
  { vm with acceptedDB := (k, v) :: vm.acceptedDB }

inductive AcceptResult where
  | ok
  | dbErr
  | atomicErr
deriving DecidableEq, Repr

/-- `Block.Accept` (`block.go` lines 31-50): mark the block Accepted in the
status cache, then write `Number().Bytes() → id[:]` to the acceptance
index (`ext.dbPutOk` is that Put's verdict), then — if the block carries an
atomic transaction — run its shared-memory `Accept` (`ext.atomicAcceptOk`;
for the export variant that method writes the exported UTXOs to shared
memory, for the import it consumes them, both through the external shared
memory). Both registered variants satisfy the `UnsignedAtomicTx` assertion,
so the `errUnknownAtomicTxType` branch is unreachable here. -/
def blockAccept (ext : Externals) (vm : VMState) (b : EthBlock) :
    AcceptResult × VMState :=
  let vm1 := updateStatus vm b.hash .Accepted
  if ext.dbPutOk = false then (.dbErr, vm1)
  else
    let vm2 := dbPut vm1 (minBEbytes b.height) (beBytes 32 b.hash)
    match b.atomicTx with
    | none => (.ok, vm2)
    | some _ => if ext.atomicAcceptOk = false then (.atomicErr, vm2) else (.ok, vm2)

/-! ## Spec-side characterizations -/

/-- `InputUTXOs()` of the atomic transaction a block carries, empty when it
carries none. -/
def blockInputUTXOs (b : EthBlock) : Finset Nat :=
  match b.atomicTx with
  | some atx => atomicInputUTXOs atx
  | none => ∅

/-- The spec's ancestor-input set of a path (glossary: the union of
`InputUTXOs()` over the blocks of the path). -/
def cumulativeInputs : List EthBlock → Finset Nat
  | [] => ∅
  | b :: rest => blockInputUTXOs b ∪ cumulativeInputs rest

/-- A block at which the first scan loop stops: cached-Accepted status or
the genesis hash (`block.go` line 117). -/
def stopB (vm : VMState) (b : EthBlock) : Bool :=
  decide (blockStatus vm b.hash = .Accepted ∨ b.hash = vm.genesisHash)

/-- The ancestor path the claims speak of: starting at `p`, `chain` lists
the consecutive ancestors (each resolvable in the VM's block map, none of
them Accepted or genesis) and `anc` is the stop block just past the path —
the most recent Accepted ancestor or the genesis block. -/
def chainLinksFrom (vm : VMState) : EthBlock → List EthBlock → EthBlock → Bool
  | p, [], anc => decide (p = anc) && stopB vm anc
  | p, c :: rest, anc =>
    decide (p = c) && !stopB vm c &&
      (match lookupBlock vm c.parentHash with
       | some q => chainLinksFrom vm q rest anc
       | none => false)

/-- Accuracy of the resident ancestor-input cache entries along a path:
every entry resident for a block of the path equals the cumulative
consumed-input set from that block back to the stop (the spec's contract
for the cache). An absent entry is fine. -/
def cacheAccurateOn (vm : VMState) : List EthBlock → Bool
  | [] => true
  | c :: rest =>
    (match cacheLookup vm c.hash with
     | none => true
     | some s => decide (s = cumulativeInputs (c :: rest))) && cacheAccurateOn vm rest

/-- The minimum-gas-price gate of `Block.Verify` passes: either the VM is
still bootstrapping or no transaction pays below the minimum. -/
def gasGateOk (ext : Externals) (vm : VMState) (b : EthBlock) : Bool :=
  !(vm.bootstrapped && b.txGasPrices.any (fun g => decide (g < ext.minGasPrice)))

/-- One index of the spec's signature binding: the credential at the index
exists and verifies, a public key is recovered from its first signature over
the unsigned bytes, the input at the same index exists, and the key's EVM
address equals that input's address. -/
def credIndexOK (cm : CryptoModel) (ub : List Nat)
    (co : Option Credential) (io : Option EVMInput) : Bool :=
  match co with
  | none => false
  | some c =>
    c.verifyOk &&
    (match c.sigs.head? with
     | none => false
     | some sg =>
       match cm.recoverPublicKey ub sg with
       | none => false
       | some pk =>
         match io with
         | none => false
         | some inp => decide (inp.address = cm.publicKeyToEthAddress pk))

/-- The spec's signature-binding property (claim C5, spec §4.2 rule 3 and
P2), worded from the spec rather than traced from the loop: for every
credential index `i`, the credential verifies, a public key is recovered
from its first signature over the unsigned bytes, and its EVM address equals
the address of the input at `i`. -/
def specCredentialBinding (cm : CryptoModel) (ub : List Nat) (ins : List EVMInput)
    (creds : List Credential) : Bool :=
  (List.range creds.length).all fun i => credIndexOK cm ub creds[i]? ins[i]?

/-- The earliest credential issue is an address mismatch: every credential
before some index passes fully (verifies, recovers, matches its input), and
at that index everything passes except that the recovered address differs
from the input's. -/
def firstCredIssueMismatch (cm : CryptoModel) (ub : List Nat) (ins : List EVMInput) :
    List Credential → Nat → Bool
  | [], _ => false
  | c :: rest, i =>
    if c.verifyOk = false then false
    else
      match c.sigs.head? with
      | none => false
      | some sg =>
        match cm.recoverPublicKey ub sg with
        | none => false
        | some pk =>
          match ins[i]? with
          | none => false
          | some inp =>
            if inp.address = cm.publicKeyToEthAddress pk then
              firstCredIssueMismatch cm ub ins rest (i + 1)
            else true

/-- Replace the address of the input at position `j`, leaving the rest of
the transaction alone (claim C8's probe for inputs beyond the credential
count). -/
def setInsAddr (ins : List EVMInput) (j : Nat) (a : Nat) : List EVMInput :=
  match ins[j]? with
  | some i0 => ins.set j { i0 with address := a }
  | none => ins

/-! ## Concrete instances -/

/-- The genesis block of the concrete scenario. -/
def gBlk : EthBlock :=
  { hash := 0, parentHash := 0, height := 0, txGasPrices := [], atomicTx := none }

/-- Child of genesis carrying an import that consumes UTXO 5. -/
def bBlk : EthBlock :=
  { hash := 1, parentHash := 0, height := 1, txGasPrices := [],
    atomicTx := some (.importTx {5}) }

/-- Child of `bBlk` carrying no atomic transaction. -/
def cBlk : EthBlock :=
  { hash := 2, parentHash := 1, height := 2, txGasPrices := [], atomicTx := none }

/-- Child of `cBlk` carrying an import that consumes UTXO 5 again. -/
def dBlk : EthBlock :=
  { hash := 3, parentHash := 2, height := 3, txGasPrices := [],
    atomicTx := some (.importTx {5}) }

/-- Sibling of `dBlk` (same parent `cBlk`), also consuming UTXO 5. -/
def eBlk : EthBlock :=
  { hash := 4, parentHash := 2, height := 4, txGasPrices := [],
    atomicTx := some (.importTx {5}) }

/-- The scenario's VM state: genesis Accepted, all blocks resolvable, the
ancestor-input cache empty. -/
def vm0 : VMState :=
  { blocks := [(0, gBlk), (1, bBlk), (2, cBlk), (3, dBlk), (4, eBlk)],
    statusCache := [(0, .Accepted)],
    atomicInputCache := [], acceptedDB := [],
    genesisHash := 0, bootstrapped := true }

/-- Externals with every external call succeeding. -/
def extOK : Externals :=
  { minGasPrice := 470, blockStateOk := true, semOk := true, processOk := true,
    insertOk := true, dbPutOk := true, atomicAcceptOk := true }

/-- The VM state after verifying `dBlk` on `vm0`: exactly the state the code
itself leaves behind (whatever entries its scan memoized included). -/
def vm1 : VMState := (blockVerify extOK vm0 20 dBlk).2

/-- Externals identical to `extOK` with the acceptance-index `Put` failing. -/
def extNoDB : Externals := { extOK with dbPutOk := false }

/-- A block carrying an import transaction whose parent (hash 49) is not in
the VM's block map. -/
def orphanBlk : EthBlock :=
  { hash := 50, parentHash := 49, height := 9, txGasPrices := [],
    atomicTx := some (.importTx {6}) }

/-- A block with no atomic transaction whose parent (hash 59) is not in the
VM's block map. -/
def loneBlk : EthBlock :=
  { hash := 60, parentHash := 59, height := 9, txGasPrices := [], atomicTx := none }

/-- A block with an atomic transaction, a missing parent, and an ordinary
transaction paying below the minimum gas price. -/
def cheapBlk : EthBlock :=
  { hash := 61, parentHash := 59, height := 9, txGasPrices := [1],
    atomicTx := some (.importTx ∅) }

/-- Every `EVMInput.Verify` succeeding. -/
def ivTrue : EVMInput → Bool := fun _ => true

/-- Two individually valid outputs whose codec serializations order them:
`outLo` before `outHi`. -/
def outLo : TransferableOutput :=
  { assetID := 1, amount := 0, serialBytes := [0], verifyOk := true }

def outHi : TransferableOutput :=
  { assetID := 1, amount := 0, serialBytes := [1], verifyOk := true }

/-- A transaction with no exported outputs and a zero destination chain. -/
def txNoOutputsZeroDest : UnsignedExportTx :=
  { syntacticallyVerified := false, networkID := 9, blockchainID := 11,
    destinationChain := 0, ins := [], exportedOutputs := [], unsignedBytes := [] }

/-- A transaction with no exported outputs that passes the checks preceding
the emptiness check (against avmID 7, network 9, chain 11). -/
def txNoOutputs : UnsignedExportTx :=
  { syntacticallyVerified := false, networkID := 9, blockchainID := 11,
    destinationChain := 7, ins := [], exportedOutputs := [], unsignedBytes := [] }

/-- A transaction whose exported outputs are out of canonical order. -/
def txUnsorted : UnsignedExportTx :=
  { syntacticallyVerified := false, networkID := 9, blockchainID := 11,
    destinationChain := 7, ins := [], exportedOutputs := [outHi, outLo],
    unsignedBytes := [] }

/-- A transaction with a non-empty, canonically sorted output list. -/
def txSorted : UnsignedExportTx :=
  { syntacticallyVerified := false, networkID := 9, blockchainID := 11,
    destinationChain := 7, ins := [], exportedOutputs := [outLo, outHi],
    unsignedBytes := [] }

/-- A world state with a large native balance everywhere. -/
def sBig : StateDB :=
  fun _ => { balance := 2 ^ 100, nonce := 0, multiCoin := fun _ => 0 }

/-- A native-asset input whose amount times a positive rate exceeds 64 bits. -/
def inpBig : EVMInput := { address := 1, amount := 2 ^ 60, assetID := 0, nonce := 0 }

/-- Crypto model whose recovery always yields key 0, mapped to address 7. -/
def cmW : CryptoModel :=
  { recoverPublicKey := fun _ _ => some 0, publicKeyToEthAddress := fun _ => 7 }

/-- Context for the credential-count scenarios. -/
def ctxW : VMCtx :=
  { xChainID := 1, networkID := 1, chainID := 2, txFee := 0, avaxAssetID := 0 }

def outW : TransferableOutput :=
  { assetID := 0, amount := 0, serialBytes := [0], verifyOk := true }

/-- Two inputs — the first bound to the recovered address 7, the second with
address 9, which no credential covers. -/
def txW : UnsignedExportTx :=
  { syntacticallyVerified := false, networkID := 1, blockchainID := 2,
    destinationChain := 1,
    ins := [{ address := 7, amount := 0, assetID := 0, nonce := 0 },
            { address := 9, amount := 0, assetID := 0, nonce := 0 }],
    exportedOutputs := [outW], unsignedBytes := [] }

/-- The same transaction with no inputs at all, so any credential's
`tx.Ins[i]` access is out of range. -/
def txW2 : UnsignedExportTx := { txW with ins := [] }

/-- A single well-formed credential. -/
def credsW : List Credential := [{ verifyOk := true, sigs := [3] }]

/-! ## Lemmas about the conflict scan -/

theorem accumulateLoop_fst (l : List EthBlock) : ∀ (vm : VMState) (s : Finset Nat),
    (accumulateLoop vm l s).1 = s ∪ cumulativeInputs l := by
  induction l with
  | nil => intro vm s; simp [accumulateLoop, cumulativeInputs]
  | cons p rest ih =>
    intro vm s
    cases h : p.atomicTx with
    | some atx =>
      simp [accumulateLoop, h, ih, cumulativeInputs, blockInputUTXOs, Finset.union_assoc]
    | none =>
      simp [accumulateLoop, h, ih, cumulativeInputs, blockInputUTXOs]

theorem cumulativeInputs_append (a b : List EthBlock) :
    cumulativeInputs (a ++ b) = cumulativeInputs a ∪ cumulativeInputs b := by
  induction a with
  | nil => simp [cumulativeInputs]
  | cons x xs ih => simp [cumulativeInputs, ih, Finset.union_assoc]

theorem cumulativeInputs_reverse (l : List EthBlock) :
    cumulativeInputs l.reverse = cumulativeInputs l := by
  induction l with
  | nil => rfl
  | cons x xs ih =>
    rw [List.reverse_cons, cumulativeInputs_append, ih]
    simp [cumulativeInputs, Finset.union_empty]
    exact Finset.union_comm _ _

theorem walkLoop_spec (vm : VMState) (anc : EthBlock) :
    ∀ (chain : List EthBlock) (p : EthBlock) (acc : List EthBlock) (fuel : Nat),
      chainLinksFrom vm p chain anc = true →
      cacheAccurateOn vm chain = true →
      chain.length < fuel →
      ∃ k hit, k ≤ chain.length ∧
        walkLoop vm fuel p acc =
          .stopped (acc ++ chain.take k) (cumulativeInputs (chain.drop k)) hit := by
  intro chain
  induction chain with
  | nil =>
    intro p acc fuel hlink _hacc hfuel
    cases fuel with
    | zero => exact absurd hfuel (Nat.not_lt_zero _)
    | succ f =>
      simp only [chainLinksFrom, Bool.and_eq_true, decide_eq_true_eq] at hlink
      obtain ⟨hp, hstop⟩ := hlink
      subst hp
      have hcond : blockStatus vm p.hash = .Accepted ∨ p.hash = vm.genesisHash := by
        simpa [stopB] using hstop
      refine ⟨0, none, Nat.le_refl 0, ?_⟩
      simp [walkLoop, hcond, cumulativeInputs]
  | cons c rest ih =>
    intro p acc fuel hlink hacc hfuel
    cases fuel with
    | zero => exact absurd hfuel (Nat.not_lt_zero _)
    | succ f =>
      simp only [chainLinksFrom, Bool.and_eq_true, decide_eq_true_eq,
        Bool.not_eq_true'] at hlink
      obtain ⟨⟨hp, hstop⟩, hrest⟩ := hlink
      subst hp
      simp only [cacheAccurateOn, Bool.and_eq_true] at hacc
      obtain ⟨hacc1, hacc2⟩ := hacc
      have hcond : ¬ (blockStatus vm p.hash = .Accepted ∨ p.hash = vm.genesisHash) := by
        intro hor
        have hstop2 : stopB vm p = true := by simpa [stopB] using hor
        simp [hstop2] at hstop
      cases hc : cacheLookup vm p.hash with
      | some s =>
        rw [hc] at hacc1
        have hs : s = cumulativeInputs (p :: rest) := by simpa using hacc1
        refine ⟨0, some p.hash, Nat.zero_le _, ?_⟩
        simp [walkLoop, hcond, hc, hs]
      | none =>
        cases hpar : lookupBlock vm p.parentHash with
        | none => rw [hpar] at hrest; simp at hrest
        | some q =>
          rw [hpar] at hrest
          have hfuel2 : rest.length < f := by
            simpa [Nat.succ_lt_succ_iff] using hfuel
          obtain ⟨k, hit, hk, heq⟩ := ih q (acc ++ [p]) f hrest hacc2 hfuel2
          refine ⟨k + 1, hit, by simpa using Nat.succ_le_succ hk, ?_⟩
          have hif : walkLoop vm (f + 1) p acc = walkLoop vm f q (acc ++ [p]) := by
            simp [walkLoop, hcond, hc, hpar]
          rw [hif, heq, List.take_succ_cons, List.drop_succ_cons]
          simp [List.append_assoc]

theorem tailResult_ne_conflict (ext : Externals) :
    ¬ tailResult ext = .err .atomicInputConflict := by
  unfold tailResult
  split_ifs <;> simp

/-- C1 (amended): for a non-genesis block carrying an import transaction,
provided every ancestor-input cache entry resident for a block of the
scanned path is accurate (equals the cumulative consumed-input set from that
block back to the most recent Accepted ancestor or genesis — in particular
whenever no entry is resident), `Block.Verify` returns `atomicInputConflict`
exactly when some id of the transaction's `InputUTXOs()` lies in the union
of `InputUTXOs()` over the blocks on the path from the parent back to, but
not including, that stop block. -/
theorem c1_atomic_input_conflict_iff (ext : Externals) (vm : VMState) (fuel : Nat)
    (b p anc : EthBlock) (utxos : Finset Nat) (chain : List EthBlock)
    (h1 : gasGateOk ext vm b = true)
    (h2 : b.atomicTx = some (.importTx utxos))
    (h3 : decide (b.hash = vm.genesisHash) = false)
    (h4 : lookupBlock vm b.parentHash = some p)
    (h5 : ext.blockStateOk = true)
    (h6 : chainLinksFrom vm p chain anc = true)
    (h7 : cacheAccurateOn vm chain = true)
    (h8 : chain.length < fuel) :
    (blockVerify ext vm fuel b).1 = .err .atomicInputConflict ↔
      0 < (utxos ∩ cumulativeInputs chain).card := by
  have hg : (vm.bootstrapped && b.txGasPrices.any fun g => decide (g < ext.minGasPrice))
      = false := by
    revert h1
    unfold gasGateOk
    cases vm.bootstrapped && b.txGasPrices.any fun g => decide (g < ext.minGasPrice) <;> simp
  have hng : ¬ b.hash = vm.genesisHash := of_decide_eq_false h3
  obtain ⟨k, hit, hk, hwalk⟩ := walkLoop_spec vm anc chain p [] fuel h6 h7 h8
  have hacc : (accumulateLoop vm ([] ++ chain.take k).reverse
      (cumulativeInputs (chain.drop k))).1 = cumulativeInputs chain := by
    rw [accumulateLoop_fst, cumulativeInputs_reverse, List.nil_append,
      Finset.union_comm, ← cumulativeInputs_append, List.take_append_drop]
  by_cases hinter : utxos ∩ cumulativeInputs chain = ∅
  · simp only [blockVerify, hg, h2, h4, h5, hwalk, hng, hacc, hinter]
    simp [tailResult_ne_conflict ext, hinter]
  · simp only [blockVerify, hg, h2, h4, h5, hwalk, hng, hacc, hinter]
    simp [hinter, Finset.card_pos, Finset.nonempty_iff_ne_empty]

/-- C1 witness: the amended statement at the concrete conflicting block
`dBlk` over the clean-cache state `vm0`. -/
theorem c1_atomic_input_conflict_iff_witness :
    gasGateOk extOK vm0 dBlk = true ∧
    dBlk.atomicTx = some (.importTx {5}) ∧
    decide (dBlk.hash = vm0.genesisHash) = false ∧
    lookupBlock vm0 dBlk.parentHash = some cBlk ∧
    extOK.blockStateOk = true ∧
    chainLinksFrom vm0 cBlk [cBlk, bBlk] gBlk = true ∧
    cacheAccurateOn vm0 [cBlk, bBlk] = true ∧
    List.length [cBlk, bBlk] < 20 ∧
    ((blockVerify extOK vm0 20 dBlk).1 = .err .atomicInputConflict ↔
      0 < (({5} : Finset Nat) ∩ cumulativeInputs [cBlk, bBlk]).card) :=
  ⟨by decide, by decide, by decide, by decide, by decide, by decide, by decide, by decide,
   c1_atomic_input_conflict_iff extOK vm0 20 dBlk cBlk gBlk {5} [cBlk, bBlk]
     (by decide) (by decide) (by decide) (by decide) (by decide) (by decide)
     (by decide) (by decide)⟩

/-- C1 counterexample to the claim as stated: in the state `vm1` that
`Block.Verify` itself left behind after verifying `dBlk`, the sibling `eBlk`
consumes UTXO 5, UTXO 5 lies in the union of `InputUTXOs()` over the path
from `eBlk`'s parent back to genesis (the path `[cBlk, bBlk]`, certified by
`chainLinksFrom`), yet `Verify(eBlk)` returns success, not
`atomicInputConflict` at all. -/
theorem c1_counterexample_cache_breaks_iff :
    eBlk.atomicTx = some (.importTx {5}) ∧
    decide (eBlk.hash = vm1.genesisHash) = false ∧
    lookupBlock vm1 eBlk.parentHash = some cBlk ∧
    chainLinksFrom vm1 cBlk [cBlk, bBlk] gBlk = true ∧
    5 ∈ cumulativeInputs [cBlk, bBlk] ∧
    (blockVerify extOK vm1 20 eBlk).1 = .ok :=
  ⟨by decide, by decide, by decide, by decide, by decide, by decide⟩

/-- C2: the memoization bug evaluated. Verifying `dBlk` on the clean state
correctly reports the conflict, but memoizes the empty set under `cBlk`
(a block with no atomic transaction) although the cumulative consumed-input
set through `cBlk` is `{5}`; with those entries resident, verifying the
sibling `eBlk` — whose import consumes the same UTXO 5 — succeeds, so the
scan's verdict depends on cache residency. -/
theorem c2_ancestor_cache_code_bug :
    (blockVerify extOK vm0 20 dBlk).1 = .err .atomicInputConflict ∧
    cacheLookup vm1 cBlk.hash = some ∅ ∧
    cumulativeInputs [cBlk, bBlk] = {5} ∧
    cacheAccurateOn vm1 [cBlk, bBlk] = false ∧
    (blockVerify extOK vm1 20 eBlk).1 = .ok :=
  ⟨by decide, by decide, by decide, by decide, by decide⟩

/-- C9 (amended): for a block that carries an atomic transaction and passes
the minimum-gas-price gate, a parent absent from the VM's block map — so
that `Parent()` yields the missing-block sentinel — makes `Block.Verify`
fail the `.(*Block)` type assertion (a Go panic) instead of returning an
error. -/
theorem c9_missing_parent_panics_with_atomic_tx (ext : Externals) (vm : VMState)
    (fuel : Nat) (b : EthBlock) (tx : AtomicTx)
    (h1 : gasGateOk ext vm b = true)
    (h2 : b.atomicTx = some tx)
    (h3 : lookupBlock vm b.parentHash = none) :
    (blockVerify ext vm fuel b).1 = .panicked := by
  have hg : (vm.bootstrapped && b.txGasPrices.any fun g => decide (g < ext.minGasPrice))
      = false := by
    revert h1
    unfold gasGateOk
    cases vm.bootstrapped && b.txGasPrices.any fun g => decide (g < ext.minGasPrice) <;> simp
  simp [blockVerify, hg, h2, h3]

/-- C9 witness: a block with an import transaction and an unresolvable
parent panics in `Verify`. -/
theorem c9_missing_parent_panics_witness :
    gasGateOk extOK vm0 orphanBlk = true ∧
    orphanBlk.atomicTx = some (.importTx {6}) ∧
    lookupBlock vm0 orphanBlk.parentHash = none ∧
    (blockVerify extOK vm0 20 orphanBlk).1 = .panicked :=
  ⟨by decide, by decide, by decide,
   c9_missing_parent_panics_with_atomic_tx extOK vm0 20 orphanBlk (.importTx {6})
     (by decide) (by decide) (by decide)⟩

/-- C9 counterexample to the claim as stated: a block without an atomic
transaction never touches `Parent()`, so `Verify` succeeds although the
parent is missing; and a block with an atomic transaction but a
below-minimum gas price returns `insufficientGasPrice` — an ordinary error —
before the parent cast is reached. -/
theorem c9_counterexample_no_panic_paths :
    lookupBlock vm0 loneBlk.parentHash = none ∧
    loneBlk.atomicTx = none ∧
    (blockVerify extOK vm0 20 loneBlk).1 = .ok ∧
    lookupBlock vm0 cheapBlk.parentHash = none ∧
    cheapBlk.atomicTx.isSome = true ∧
    (blockVerify extOK vm0 20 cheapBlk).1 = .err .insufficientGasPrice :=
  ⟨by decide, by decide, by decide, by decide, by decide, by decide⟩

/-- C10: `Block.Accept` caches the Accepted status first; when the
acceptance-index write or the atomic transaction's shared-memory `Accept`
then fails, `Accept` returns that error while the status cache already
answers Accepted for the block — acceptance is not atomic on error. -/
theorem c10_status_accepted_despite_failure (ext : Externals) (vm : VMState)
    (b : EthBlock)
    (h : ext.dbPutOk = false ∨ (b.atomicTx.isSome = true ∧ ext.atomicAcceptOk = false)) :
    decide ((blockAccept ext vm b).1 = .ok) = false ∧
    lookupA (blockAccept ext vm b).2.statusCache b.hash = some .Accepted := by
  obtain hdb | ⟨hsome, hacc⟩ := h
  · simp [blockAccept, hdb, updateStatus, lookupA]
  · cases hdp : ext.dbPutOk
    · simp [blockAccept, hdp, updateStatus, lookupA]
    · obtain ⟨tx, htx⟩ := Option.isSome_iff_exists.mp hsome
      simp [blockAccept, hdp, htx, hacc, updateStatus, dbPut, lookupA]

/-- C10 witness: accepting `bBlk` with a failing acceptance-index write
returns an error yet leaves the cached status Accepted. -/
theorem c10_status_accepted_despite_failure_witness :
    (extNoDB.dbPutOk = false ∨ (bBlk.atomicTx.isSome = true ∧ extNoDB.atomicAcceptOk = false)) ∧
    decide ((blockAccept extNoDB vm0 bBlk).1 = .ok) = false ∧
    lookupA (blockAccept extNoDB vm0 bBlk).2.statusCache bBlk.hash = some .Accepted := by
  have h := c10_status_accepted_despite_failure extNoDB vm0 bBlk (Or.inl (by decide))
  exact ⟨Or.inl (by decide), h.1, h.2⟩

/-- C3 (amended): whenever the acceptance-index write of `Block.Accept`
succeeds (in particular whenever `Accept` succeeds), the index maps the
*minimal* big-endian encoding of the block's height — `big.Int.Bytes()`,
which omits leading zeros and is empty for height 0, not a fixed 8-byte
key — to the 32-byte block id, so a read keyed by that same encoding of
`Height(B)` yields `ID(B)`. -/
theorem c3_acceptance_index_minimal_bigendian (ext : Externals) (vm : VMState)
    (b : EthBlock)
    (h : ext.dbPutOk = true) :
    lookupDB (blockAccept ext vm b).2.acceptedDB (minBEbytes b.height) =
      some (beBytes 32 b.hash) := by
  cases htx : b.atomicTx with
  | none => simp [blockAccept, h, htx, dbPut, updateStatus, lookupDB]
  | some tx =>
    cases hacc : ext.atomicAcceptOk <;>
      simp [blockAccept, h, htx, hacc, dbPut, updateStatus, lookupDB]

/-- C3 witness: accepting the height-1 block stores its id under the
one-byte key `[1]`. -/
theorem c3_acceptance_index_minimal_bigendian_witness :
    extOK.dbPutOk = true ∧
    lookupDB (blockAccept extOK vm0 bBlk).2.acceptedDB (minBEbytes bBlk.height) =
      some (beBytes 32 bBlk.hash) :=
  ⟨by decide, c3_acceptance_index_minimal_bigendian extOK vm0 bBlk (by decide)⟩

/-- C3 counterexample to the claim as stated: accepting the block at height
1 succeeds, but the key written is the 1-byte minimal big-endian encoding
`[1]`, not 8 big-endian bytes — reading the index at the 8-byte encoding of
the height finds nothing. -/
theorem c3_counterexample_key_not_8_bytes :
    (blockAccept extOK vm0 bBlk).1 = .ok ∧
    bBlk.height = 1 ∧
    (minBEbytes 1).length = 1 ∧
    lookupDB (blockAccept extOK vm0 bBlk).2.acceptedDB (beBytes 8 1) = none ∧
    lookupDB (blockAccept extOK vm0 bBlk).2.acceptedDB (minBEbytes 1) =
      some (beBytes 32 bBlk.hash) :=
  ⟨by decide, by decide, by decide, by decide, by decide⟩

/-! ## Lemmas about the EVM state transfer -/

theorem getNonce_subBalance (s : StateDB) (a amt x : Nat) :
    getNonce (subBalance s a amt) x = getNonce s x := by
  unfold getNonce subBalance updAccount
  split <;> rfl

theorem getNonce_subBalanceMultiCoin (s : StateDB) (a asset amt x : Nat) :
    getNonce (subBalanceMultiCoin s a asset amt) x = getNonce s x := by
  unfold getNonce subBalanceMultiCoin updAccount
  split <;> rfl

/-- C4: `EVMStateTransfer` implements the spec's per-input description:
inputs are processed in declaration order; each debits exactly
`amount * x2cRate` from the base balance (native asset) or the asset's
multi-coin sub-balance, a shortfall yields `insufficientFunds`, a nonce
differing from the account's current nonce yields `invalidNonce`, and a
successful input leaves the account nonce at `Nonce + 1` (uint64) — the
verdicts agree on every input list, and on success so do the final states
(an error return only differs in the partial mutation the Go code leaves
behind, which its caller discards). -/
theorem c4_evm_state_transfer_matches_spec (avaxAssetID rate : Nat) :
    ∀ (ins : List EVMInput) (s : StateDB),
    (evmStateTransfer avaxAssetID rate s ins).1 =
      (specExportTransfer avaxAssetID rate s ins).1 ∧
    ((evmStateTransfer avaxAssetID rate s ins).2 =
        (specExportTransfer avaxAssetID rate s ins).2 ∨
      (evmStateTransfer avaxAssetID rate s ins).1.isSome = true) := by
  intro ins
  induction ins with
  | nil => intro s; exact ⟨rfl, Or.inl rfl⟩
  | cons inp rest ih =>
    intro s
    by_cases hA : inp.assetID = avaxAssetID
    · by_cases hshort : getBalance s inp.address < inp.amount * rate
      · refine ⟨?_, Or.inl ?_⟩ <;>
          simp [evmStateTransfer, specExportTransfer, assetBalance, hA, hshort]
      · by_cases hN : getNonce s inp.address = inp.nonce
        · have hN1 : getNonce (subBalance s inp.address (inp.amount * rate))
              inp.address = inp.nonce := by
            rw [getNonce_subBalance]; exact hN
          have hrec := ih (setNonce (subBalance s inp.address (inp.amount * rate))
            inp.address ((inp.nonce + 1) % 2 ^ 64))
          simpa [evmStateTransfer, specExportTransfer, assetBalance, debitInput,
            hA, hshort, hN, hN1] using hrec
        · have hN1 : ¬ getNonce (subBalance s inp.address (inp.amount * rate))
              inp.address = inp.nonce := by
            rw [getNonce_subBalance]; exact hN
          refine ⟨?_, Or.inr ?_⟩ <;>
            simp [evmStateTransfer, specExportTransfer, assetBalance, hA, hshort, hN, hN1]
    · by_cases hshort : getBalanceMultiCoin s inp.address inp.assetID < inp.amount * rate
      · refine ⟨?_, Or.inl ?_⟩ <;>
          simp [evmStateTransfer, specExportTransfer, assetBalance, hA, hshort]
      · by_cases hN : getNonce s inp.address = inp.nonce
        · have hN1 : getNonce (subBalanceMultiCoin s inp.address inp.assetID
              (inp.amount * rate)) inp.address = inp.nonce := by
            rw [getNonce_subBalanceMultiCoin]; exact hN
          have hrec := ih (setNonce (subBalanceMultiCoin s inp.address inp.assetID
            (inp.amount * rate)) inp.address ((inp.nonce + 1) % 2 ^ 64))
          simpa [evmStateTransfer, specExportTransfer, assetBalance, debitInput,
            hA, hshort, hN, hN1] using hrec
        · have hN1 : ¬ getNonce (subBalanceMultiCoin s inp.address inp.assetID
              (inp.amount * rate)) inp.address = inp.nonce := by
            rw [getNonce_subBalanceMultiCoin]; exact hN
          refine ⟨?_, Or.inr ?_⟩ <;>
            simp [evmStateTransfer, specExportTransfer, assetBalance, hA, hshort, hN, hN1]

/-! ## Lemmas about the credential loop -/

theorem semCredLoop_ne_ok (cm : CryptoModel) (ub : List Nat) (ins : List EVMInput) :
    ∀ (creds : List Credential) (i : Nat),
    ¬ semCredLoop cm ub ins creds i = some .ok := by
  intro creds
  induction creds with
  | nil => intro i h; simp [semCredLoop] at h
  | cons c rest ih =>
    intro i h
    by_cases hv : c.verifyOk = false
    · simp [semCredLoop, hv] at h
    · cases hs : c.sigs.head? with
      | none => simp [semCredLoop, hv, hs] at h
      | some sg =>
        cases hr : cm.recoverPublicKey ub sg with
        | none => simp [semCredLoop, hv, hs, hr] at h
        | some pk =>
          cases hi : ins[i]? with
          | none => simp [semCredLoop, hv, hs, hr, hi] at h
          | some inp =>
            by_cases haddr : inp.address = cm.publicKeyToEthAddress pk
            · rw [semCredLoop] at h
              simp only [hv, if_false, hs, hr, hi, haddr, if_true] at h
              exact ih (i + 1) h
            · simp [semCredLoop, hv, hs, hr, hi, haddr] at h

theorem semCredLoop_none_iff (cm : CryptoModel) (ub : List Nat) (ins : List EVMInput) :
    ∀ (creds : List Credential) (i : Nat),
    semCredLoop cm ub ins creds i = none ↔
      ∀ j, j < creds.length → credIndexOK cm ub creds[j]? ins[i + j]? = true := by
  intro creds
  induction creds with
  | nil => intro i; simp [semCredLoop]
  | cons c rest ih =>
    intro i
    by_cases hv : c.verifyOk = false
    · simp only [semCredLoop, hv, if_true]
      constructor
      · intro h; exact absurd h (by simp)
      · intro h
        have h0 := h 0 (by simp)
        simp [credIndexOK, hv] at h0
    · cases hs : c.sigs.head? with
      | none =>
        simp only [semCredLoop, hv, if_false, hs]
        constructor
        · intro h; exact absurd h (by simp)
        · intro h
          have h0 := h 0 (by simp)
          simp [credIndexOK, hs] at h0
      | some sg =>
        cases hr : cm.recoverPublicKey ub sg with
        | none =>
          simp only [semCredLoop, hv, if_false, hs, hr]
          constructor
          · intro h; exact absurd h (by simp)
          · intro h
            have h0 := h 0 (by simp)
            simp [credIndexOK, hs, hr] at h0
        | some pk =>
          cases hi : ins[i]? with
          | none =>
            simp only [semCredLoop, hv, if_false, hs, hr, hi]
            constructor
            · intro h; exact absurd h (by simp)
            · intro h
              have h0 := h 0 (by simp)
              simp [credIndexOK, hs, hr, hi] at h0
          | some inp =>
            by_cases haddr : inp.address = cm.publicKeyToEthAddress pk
            · have hstep : semCredLoop cm ub ins (c :: rest) i =
                  semCredLoop cm ub ins rest (i + 1) := by
                rw [semCredLoop]
                simp [hv, hs, hr, hi, haddr]
              rw [hstep, ih (i + 1)]
              constructor
              · intro h j hj
                cases j with
                | zero =>
                  have hcv : c.verifyOk = true := by
                    cases hx : c.verifyOk
                    · exact absurd hx hv
                    · rfl
                  simp [credIndexOK, hcv, hs, hr, hi, haddr]
                | succ j' =>
                  have hj' : j' < rest.length := by simpa using hj
                  have hidx : i + (j' + 1) = i + 1 + j' := by omega
                  simpa [hidx] using h j' hj'
              · intro h j hj
                have hidx : i + 1 + j = i + (j + 1) := by omega
                have hsub := h (j + 1) (by simpa using Nat.succ_lt_succ hj)
                simpa [hidx] using hsub
            · simp only [semCredLoop, hv, if_false, hs, hr, hi, haddr]
              constructor
              · intro h; exact absurd h (by simp)
              · intro h
                have h0 := h 0 (by simp)
                simp [credIndexOK, hs, hr, hi, haddr] at h0

theorem semCredLoop_mismatch_iff (cm : CryptoModel) (ub : List Nat)
    (ins : List EVMInput) : ∀ (creds : List Credential) (i : Nat),
    semCredLoop cm ub ins creds i = some (.permErr .pubKeyMismatch) ↔
      firstCredIssueMismatch cm ub ins creds i = true := by
  intro creds
  induction creds with
  | nil => intro i; simp [semCredLoop, firstCredIssueMismatch]
  | cons c rest ih =>
    intro i
    by_cases hv : c.verifyOk = false
    · simp [semCredLoop, firstCredIssueMismatch, hv]
    · cases hs : c.sigs.head? with
      | none => simp [semCredLoop, firstCredIssueMismatch, hv, hs]
      | some sg =>
        cases hr : cm.recoverPublicKey ub sg with
        | none => simp [semCredLoop, firstCredIssueMismatch, hv, hs, hr]
        | some pk =>
          cases hi : ins[i]? with
          | none => simp [semCredLoop, firstCredIssueMismatch, hv, hs, hr, hi]
          | some inp =>
            by_cases haddr : inp.address = cm.publicKeyToEthAddress pk
            · have hstep : semCredLoop cm ub ins (c :: rest) i =
                  semCredLoop cm ub ins rest (i + 1) := by
                rw [semCredLoop]
                simp [hv, hs, hr, hi, haddr]
              have hstep2 : firstCredIssueMismatch cm ub ins (c :: rest) i =
                  firstCredIssueMismatch cm ub ins rest (i + 1) := by
                rw [firstCredIssueMismatch]
                simp [hv, hs, hr, hi, haddr]
              rw [hstep, hstep2]
              exact ih (i + 1)
            · simp [semCredLoop, firstCredIssueMismatch, hv, hs, hr, hi, haddr]

/-- C5: `SemanticVerify` of an export transaction succeeds exactly when the
syntactic check passes, every credential index satisfies the spec's
signature binding — the public key recovered from `credentials[i].Sigs[0]`
over the canonically serialized unsigned bytes maps to an EVM address equal
to `Ins[i].Address` — and the flow check balances; and it returns the
permanent error `publicKeySignatureMismatch` exactly when the syntactic
check passes and the earliest credential issue is such an address
mismatch. -/
theorem c5_semantic_verify_signature_binding (cm : CryptoModel)
    (ivOk : EVMInput → Bool) (ctx : VMCtx) (tx : UnsignedExportTx)
    (creds : List Credential) :
    (exportSemanticVerify cm ivOk ctx tx creds = .ok ↔
      (exportTxVerify ivOk (some tx) ctx.xChainID ctx.networkID ctx.chainID
          ctx.txFee ctx.avaxAssetID = none ∧
       specCredentialBinding cm tx.unsignedBytes tx.ins creds = true ∧
       flowOkB ctx.avaxAssetID ctx.txFee tx = true)) ∧
    (exportSemanticVerify cm ivOk ctx tx creds = .permErr .pubKeyMismatch ↔
      (exportTxVerify ivOk (some tx) ctx.xChainID ctx.networkID ctx.chainID
          ctx.txFee ctx.avaxAssetID = none ∧
       firstCredIssueMismatch cm tx.unsignedBytes tx.ins creds 0 = true)) := by
  have hbind : specCredentialBinding cm tx.unsignedBytes tx.ins creds = true ↔
      semCredLoop cm tx.unsignedBytes tx.ins creds 0 = none := by
    rw [semCredLoop_none_iff]
    simp [specCredentialBinding, List.all_eq_true, List.mem_range]
  cases hsyn : exportTxVerify ivOk (some tx) ctx.xChainID ctx.networkID ctx.chainID
      ctx.txFee ctx.avaxAssetID with
  | some e => constructor <;> simp [exportSemanticVerify, hsyn]
  | none =>
    cases hloop : semCredLoop cm tx.unsignedBytes tx.ins creds 0 with
    | some r =>
      have hro : ¬ r = .ok := by
        intro hr
        exact semCredLoop_ne_ok cm tx.unsignedBytes tx.ins creds 0 (hr ▸ hloop)
      have hbf : ¬ specCredentialBinding cm tx.unsignedBytes tx.ins creds = true := by
        rw [hbind, hloop]; simp
      have hmk := semCredLoop_mismatch_iff cm tx.unsignedBytes tx.ins creds 0
      rw [hloop] at hmk
      constructor
      · simp [exportSemanticVerify, hsyn, hloop, hro, hbf]
      · simp only [exportSemanticVerify, hsyn, hloop]
        rw [← hmk]
        simp
    | none =>
      have hb : specCredentialBinding cm tx.unsignedBytes tx.ins creds = true :=
        hbind.mpr hloop
      have hfm : ¬ firstCredIssueMismatch cm tx.unsignedBytes tx.ins creds 0 = true := by
        intro hx
        have h2 := (semCredLoop_mismatch_iff cm tx.unsignedBytes tx.ins creds 0).mpr hx
        rw [hloop] at h2
        exact Option.noConfusion h2
      cases hflow : flowOkB ctx.avaxAssetID ctx.txFee tx <;>
        simp [exportSemanticVerify, hsyn, hloop, hflow, hb, hfm]

set_option maxHeartbeats 1000000 in
/-- C6 (amended): in `UnsignedExportTx.Verify`'s check order, a transaction
that has not short-circuited on the already-verified flag and whose
destination chain is nonzero and equals the X-chain id gets
`noExportOutputs` when its `ExportedOutputs` list is empty; one that
additionally matches the network and blockchain ids and whose every input
and output individually verifies gets `outputsNotSorted` when the outputs
are out of canonical order; and a transaction with a non-empty, sorted list
is never rejected by either of those two checks. -/
theorem c6_verify_output_errors_in_order (ivOk : EVMInput → Bool)
    (tx1 tx2 tx3 : UnsignedExportTx) (avmID netID chainID fa fid : Nat)
    (h11 : tx1.syntacticallyVerified = false)
    (h12 : decide (tx1.destinationChain = 0) = false)
    (h13 : tx1.destinationChain = avmID)
    (h14 : tx1.exportedOutputs = [])
    (h21 : tx2.syntacticallyVerified = false)
    (h22 : decide (tx2.destinationChain = 0) = false)
    (h23 : tx2.destinationChain = avmID)
    (h24 : decide (tx2.exportedOutputs.length = 0) = false)
    (h25 : tx2.networkID = netID)
    (h26 : chainID = tx2.blockchainID)
    (h27 : tx2.ins.all ivOk = true)
    (h28 : tx2.exportedOutputs.all (fun o => o.verifyOk) = true)
    (h29 : isSortedOutputs tx2.exportedOutputs = false)
    (h31 : decide (tx3.exportedOutputs.length = 0) = false)
    (h32 : isSortedOutputs tx3.exportedOutputs = true) :
    exportTxVerify ivOk (some tx1) avmID netID chainID fa fid = some .noExportOutputs ∧
    exportTxVerify ivOk (some tx2) avmID netID chainID fa fid = some .outputsNotSorted ∧
    decide (exportTxVerify ivOk (some tx3) avmID netID chainID fa fid =
      some .noExportOutputs) = false ∧
    decide (exportTxVerify ivOk (some tx3) avmID netID chainID fa fid =
      some .outputsNotSorted) = false := by
  have hne1 : ¬ avmID = 0 := h13 ▸ of_decide_eq_false h12
  have hne2 : ¬ avmID = 0 := h23 ▸ of_decide_eq_false h22
  refine ⟨?_, ?_, ?_, ?_⟩
  · simp [exportTxVerify, h11, hne1, h13, h14]
  · simp [exportTxVerify, h21, hne2, h23, of_decide_eq_false h24,
      h25, h26, h27, h28, h29]
  · have hlen : ¬ tx3.exportedOutputs.length = 0 := of_decide_eq_false h31
    rw [decide_eq_false_iff_not]
    intro hcontra
    simp only [exportTxVerify] at hcontra
    split_ifs at hcontra <;>
      first
        | exact absurd hcontra (by simp)
        | exact hlen (by assumption)
  · rw [decide_eq_false_iff_not]
    intro hcontra
    simp only [exportTxVerify] at hcontra
    split_ifs at hcontra <;>
      first
        | exact absurd hcontra (by simp)
        | exact (by assumption : ¬ isSortedOutputs tx3.exportedOutputs = true) h32

/-- C6 witness: the amended statement at three concrete transactions against
avmID 7, network 9, chain 11. -/
theorem c6_verify_output_errors_in_order_witness :
    txNoOutputs.exportedOutputs = [] ∧
    isSortedOutputs txUnsorted.exportedOutputs = false ∧
    isSortedOutputs txSorted.exportedOutputs = true ∧
    (exportTxVerify ivTrue (some txNoOutputs) 7 9 11 0 0 = some .noExportOutputs ∧
     exportTxVerify ivTrue (some txUnsorted) 7 9 11 0 0 = some .outputsNotSorted ∧
     decide (exportTxVerify ivTrue (some txSorted) 7 9 11 0 0 =
       some .noExportOutputs) = false ∧
     decide (exportTxVerify ivTrue (some txSorted) 7 9 11 0 0 =
       some .outputsNotSorted) = false) :=
  ⟨by decide, by decide, by decide,
   c6_verify_output_errors_in_order ivTrue txNoOutputs txUnsorted txSorted 7 9 11 0 0
     (by decide) (by decide) (by decide) (by decide) (by decide) (by decide)
     (by decide) (by decide) (by decide) (by decide) (by decide) (by decide)
     (by decide) (by decide) (by decide)⟩

/-- C6 counterexample to the claim as stated: a transaction with an empty
`ExportedOutputs` list but a zero destination chain is rejected by the
earlier `wrongChainID` check, not with `noExportOutputs`. -/
theorem c6_counterexample_earlier_check_preempts :
    txNoOutputsZeroDest.exportedOutputs = [] ∧
    exportTxVerify ivTrue (some txNoOutputsZeroDest) 7 9 11 0 0 = some .wrongChainID ∧
    decide (TxVerifyErr.wrongChainID = TxVerifyErr.noExportOutputs) = false :=
  ⟨by decide, by decide, by decide⟩

/-! ## Lemmas about overflow behaviour -/

theorem evmStateTransfer_no_overflow (avaxAssetID rate : Nat) :
    ∀ (ins : List EVMInput) (s : StateDB),
    ¬ (evmStateTransfer avaxAssetID rate s ins).1 = some .overflowExport := by
  intro ins
  induction ins with
  | nil => intro s h; simp [evmStateTransfer] at h
  | cons inp rest ih =>
    intro s h
    by_cases hA : inp.assetID = avaxAssetID
    · by_cases hshort : getBalance s inp.address < inp.amount * rate
      · simp [evmStateTransfer, hA, hshort] at h
      · by_cases hN : getNonce (subBalance s inp.address (inp.amount * rate))
            inp.address = inp.nonce
        · rw [evmStateTransfer] at h
          simp only [hA, if_true, hshort, if_false, hN, not_true_eq_false] at h
          exact ih _ h
        · simp [evmStateTransfer, hA, hshort, hN] at h
    · by_cases hshort : getBalanceMultiCoin s inp.address inp.assetID < inp.amount * rate
      · simp [evmStateTransfer, hA, hshort] at h
      · by_cases hN : getNonce (subBalanceMultiCoin s inp.address inp.assetID
            (inp.amount * rate)) inp.address = inp.nonce
        · rw [evmStateTransfer] at h
          simp only [hA, if_false, hshort, hN, not_true_eq_false] at h
          exact ih _ h
        · simp [evmStateTransfer, hA, hshort, hN] at h

theorem finishExportTx_ne_overflow (ivOk : EVMInput → Bool) (ctx : VMCtx)
    (signOk : Bool) (utx : UnsignedExportTx) :
    ¬ finishExportTx ivOk ctx signOk utx = .error .overflowExport := by
  unfold finishExportTx
  split_ifs
  · simp
  · cases exportTxVerify ivOk (some utx) ctx.xChainID ctx.networkID ctx.chainID
      ctx.txFee ctx.avaxAssetID <;> simp

/-- C7 (amended): every cross-chain debit of `EVMStateTransfer` equals
`amount * x2cRate` exactly, computed in unbounded (`big.Int`) arithmetic —
the multiplication cannot overflow and the transfer never fails with
`overflowExport`; the `overflowExport` error belongs to `VM.newExportTx`,
which returns it exactly when exporting the native asset and the *uint64
addition* `amount + txFee` overflows. -/
theorem c7_exact_debit_and_overflow_source (avaxAssetID rate : Nat) (s : StateDB)
    (inp : EVMInput) (ins : List EVMInput) (ctx : VMCtx)
    (spend : Nat → Nat → Option (List EVMInput)) (signOk : Bool)
    (ivOk : EVMInput → Bool) (outSer ub : List Nat)
    (assetID amount chainID toAddr : Nat) :
    decide ((evmStateTransfer avaxAssetID rate s ins).1 = some .overflowExport) = false ∧
    ((evmStateTransfer avaxAssetID rate s [inp]).1.isSome = true ∨
      assetBalance avaxAssetID (evmStateTransfer avaxAssetID rate s [inp]).2
          inp.address inp.assetID + inp.amount * rate
        = assetBalance avaxAssetID s inp.address inp.assetID) ∧
    (newExportTx ctx spend signOk ivOk outSer ub assetID amount chainID toAddr
        = .error .overflowExport ↔
      (ctx.xChainID = chainID ∧ assetID = ctx.avaxAssetID ∧
        2 ^ 64 ≤ amount + ctx.txFee)) := by
  refine ⟨?_, ?_, ?_⟩
  · rw [decide_eq_false_iff_not]
    exact evmStateTransfer_no_overflow avaxAssetID rate ins s
  · by_cases hA : inp.assetID = avaxAssetID
    · by_cases hshort : getBalance s inp.address < inp.amount * rate
      · left; simp [evmStateTransfer, hA, hshort]
      · by_cases hN : getNonce (subBalance s inp.address (inp.amount * rate))
            inp.address = inp.nonce
        · right
          simp only [evmStateTransfer, hA, if_true, hshort, if_false, hN,
            not_true_eq_false]
          simp [assetBalance, getBalance, subBalance, setNonce, updAccount, hA]
          exact Nat.sub_add_cancel (Nat.le_of_not_lt hshort)
        · left; simp [evmStateTransfer, hA, hshort, hN]
    · by_cases hshort : getBalanceMultiCoin s inp.address inp.assetID < inp.amount * rate
      · left; simp [evmStateTransfer, hA, hshort]
      · by_cases hN : getNonce (subBalanceMultiCoin s inp.address inp.assetID
            (inp.amount * rate)) inp.address = inp.nonce
        · right
          simp only [evmStateTransfer, hA, if_false, hshort, hN, not_true_eq_false]
          simp [assetBalance, getBalanceMultiCoin, subBalanceMultiCoin, setNonce,
            updAccount, hA]
          exact Nat.sub_add_cancel (Nat.le_of_not_lt hshort)
        · left; simp [evmStateTransfer, hA, hshort, hN]
  · by_cases hx : ctx.xChainID = chainID
    · by_cases hA : assetID = ctx.avaxAssetID
      · by_cases hov : amount + ctx.txFee < 2 ^ 64
        · have hov2 : amount + ctx.txFee < 18446744073709551616 := by
            calc amount + ctx.txFee < 2 ^ 64 := hov
            _ = 18446744073709551616 := by norm_num
          have hrhs : ¬ 2 ^ 64 ≤ amount + ctx.txFee := by omega
          cases hsp : spend ctx.avaxAssetID (amount + ctx.txFee) with
          | none => simp [newExportTx, hx, hA, hov2, hsp, hrhs]
          | some ins1 =>
            simp [newExportTx, hx, hA, hov2, hsp, hrhs, finishExportTx_ne_overflow]
        · have hov2 : ¬ amount + ctx.txFee < 18446744073709551616 := by
            intro hlt
            exact hov (by calc amount + ctx.txFee < 18446744073709551616 := hlt
                          _ = 2 ^ 64 := by norm_num)
          have hrhs : 2 ^ 64 ≤ amount + ctx.txFee := by omega
          have hrhs2 : 18446744073709551616 ≤ amount + ctx.txFee := by
            calc (18446744073709551616 : Nat) = 2 ^ 64 := by norm_num
            _ ≤ amount + ctx.txFee := hrhs
          simp [newExportTx, hx, hA, hov2, hrhs2]
      · cases hsp : spend ctx.avaxAssetID ctx.txFee with
        | none => simp [newExportTx, hx, hA, hsp]
        | some ins1 =>
          cases hsp2 : spend assetID amount with
          | none => simp [newExportTx, hx, hA, hsp, hsp2]
          | some ins2 =>
            simp [newExportTx, hx, hA, hsp, hsp2, finishExportTx_ne_overflow]
    · simp [newExportTx, hx]

/-- C7 counterexample to the claim as stated: with a representative positive
rate of `10 ^ 9`, an input of `2 ^ 60` native units multiplies past the
64-bit range (`amount * rate ≥ 2 ^ 64`), yet `EVMStateTransfer` succeeds —
the debit is carried out exactly in unbounded arithmetic and no
`overflowExport` (nor any other error) is raised. -/
theorem c7_counterexample_large_product_succeeds :
    2 ^ 64 ≤ inpBig.amount * 1000000000 ∧
    (evmStateTransfer 0 1000000000 sBig [inpBig]).1 = none ∧
    assetBalance 0 (evmStateTransfer 0 1000000000 sBig [inpBig]).2 1 0
        + inpBig.amount * 1000000000 = assetBalance 0 sBig 1 0 := by
  refine ⟨by norm_num [inpBig], ?_, ?_⟩
  · norm_num [evmStateTransfer, sBig, inpBig, getBalance, getNonce, subBalance,
      setNonce, updAccount]
  · norm_num [evmStateTransfer, sBig, inpBig, getBalance, getNonce, subBalance,
      setNonce, updAccount, assetBalance]

/-! ## Lemmas about credential counts (claim C8) -/

theorem list_set_getElem_ne {α : Type} :
    ∀ (l : List α) (j k : Nat) (a : α), ¬ j = k → (l.set j a)[k]? = l[k]? := by
  intro l
  induction l with
  | nil => intro j k a _; simp
  | cons x xs ih =>
    intro j k a hjk
    cases j with
    | zero =>
      cases k with
      | zero => exact absurd rfl hjk
      | succ k' => simp [List.set]
    | succ j' =>
      cases k with
      | zero => simp [List.set]
      | succ k' => simp [List.set, ih j' k' a (by omega)]

theorem setInsAddr_getElem_lt (ins : List EVMInput) (j a : Nat) :
    ∀ k, k < j → (setInsAddr ins j a)[k]? = ins[k]? := by
  intro k hk
  unfold setInsAddr
  cases h : ins[j]? with
  | none => rfl
  | some i0 => exact list_set_getElem_ne ins j k _ (by omega)

theorem semCredLoop_setAddr_out_of_range (cm : CryptoModel) (ub : List Nat)
    (ins : List EVMInput) (j a : Nat) :
    ∀ (creds : List Credential) (i : Nat), i + creds.length ≤ j →
    semCredLoop cm ub (setInsAddr ins j a) creds i = semCredLoop cm ub ins creds i := by
  intro creds
  induction creds with
  | nil => intro i _; rfl
  | cons c rest ih =>
    intro i hij
    have hlt : i < j := by
      simp only [List.length_cons] at hij
      omega
    have hget := setInsAddr_getElem_lt ins j a i hlt
    by_cases hv : c.verifyOk = false
    · simp [semCredLoop, hv]
    · cases hs : c.sigs.head? with
      | none => simp [semCredLoop, hv, hs]
      | some sg =>
        cases hr : cm.recoverPublicKey ub sg with
        | none => simp [semCredLoop, hv, hs, hr]
        | some pk =>
          cases hi : ins[i]? with
          | none => simp [semCredLoop, hv, hs, hr, hi, hget]
          | some inp =>
            by_cases haddr : inp.address = cm.publicKeyToEthAddress pk
            · have h1 : semCredLoop cm ub (setInsAddr ins j a) (c :: rest) i =
                  semCredLoop cm ub (setInsAddr ins j a) rest (i + 1) := by
                rw [semCredLoop]
                simp [hv, hs, hr, hget, hi, haddr]
              have h2 : semCredLoop cm ub ins (c :: rest) i =
                  semCredLoop cm ub ins rest (i + 1) := by
                rw [semCredLoop]
                simp [hv, hs, hr, hi, haddr]
              rw [h1, h2]
              exact ih (i + 1) (by simp only [List.length_cons] at hij; omega)
            · simp [semCredLoop, hv, hs, hr, hi, hget, haddr]

theorem semCredLoop_overrun_ne_none (cm : CryptoModel) (ub : List Nat)
    (ins : List EVMInput) :
    ∀ (creds : List Credential) (i : Nat),
    ins.length < i + creds.length → 0 < creds.length →
    ¬ semCredLoop cm ub ins creds i = none := by
  intro creds
  induction creds with
  | nil => intro i _ h2; simp at h2
  | cons c rest ih =>
    intro i h1 _ h
    by_cases hv : c.verifyOk = false
    · simp [semCredLoop, hv] at h
    · cases hs : c.sigs.head? with
      | none => simp [semCredLoop, hv, hs] at h
      | some sg =>
        cases hr : cm.recoverPublicKey ub sg with
        | none => simp [semCredLoop, hv, hs, hr] at h
        | some pk =>
          cases hi : ins[i]? with
          | none => simp [semCredLoop, hv, hs, hr, hi] at h
          | some inp =>
            have hilen : i < ins.length := by
              by_contra hge
              have : ins[i]? = none := by
                apply List.getElem?_eq_none
                omega
              rw [this] at hi
              exact Option.noConfusion hi
            by_cases haddr : inp.address = cm.publicKeyToEthAddress pk
            · rw [semCredLoop] at h
              simp only [hv, if_false, hs, hr, hi, haddr, if_true] at h
              cases rest with
              | nil =>
                simp only [List.length_cons, List.length_nil] at h1
                omega
              | cons c2 rest2 =>
                exact ih (i + 1)
                  (by simp only [List.length_cons] at h1 ⊢; omega)
                  (by simp) h
            · simp [semCredLoop, hv, hs, hr, hi, haddr] at h

/-- C8: `SemanticVerify` iterates over the signed wrapper's credential list,
indexing `Ins` by the credential's position. With fewer credentials than
inputs, the credential loop never reads the inputs at positions at or
beyond the credential count (changing such an input's address leaves the
loop's outcome untouched) and `SemanticVerify` can still succeed — the
concrete `txW`/`credsW` run passes with its second input never
signature-checked — while with more credentials than inputs `SemanticVerify`
cannot succeed, and on the concrete `txW2`/`credsW` run the `tx.Ins[i]`
access is out of bounds: the Go code panics. -/
theorem c8_credential_count_mismatch (cm : CryptoModel) (ub : List Nat)
    (ins : List EVMInput) (creds : List Credential) (j a : Nat)
    (ivOk : EVMInput → Bool) (ctx : VMCtx) (tx2 : UnsignedExportTx)
    (creds2 : List Credential)
    (h1 : creds.length ≤ j)
    (h2 : tx2.ins.length < creds2.length) :
    semCredLoop cm ub (setInsAddr ins j a) creds 0 = semCredLoop cm ub ins creds 0 ∧
    decide (exportSemanticVerify cm ivOk ctx tx2 creds2 = .ok) = false ∧
    exportSemanticVerify cmW ivTrue ctxW txW credsW = .ok ∧
    exportSemanticVerify cmW ivTrue ctxW txW2 credsW = .panicked := by
  refine ⟨?_, ?_, by decide, by decide⟩
  · exact semCredLoop_setAddr_out_of_range cm ub ins j a creds 0 (by omega)
  · rw [decide_eq_false_iff_not]
    intro hok
    unfold exportSemanticVerify at hok
    cases hsyn : exportTxVerify ivOk (some tx2) ctx.xChainID ctx.networkID
        ctx.chainID ctx.txFee ctx.avaxAssetID with
    | some e => rw [hsyn] at hok; exact SemResult.noConfusion hok
    | none =>
      rw [hsyn] at hok
      cases hloop : semCredLoop cm tx2.unsignedBytes tx2.ins creds2 0 with
      | some r =>
        rw [hloop] at hok
        exact semCredLoop_ne_ok cm tx2.unsignedBytes tx2.ins creds2 0 (hok ▸ hloop)
      | none =>
        exact semCredLoop_overrun_ne_none cm tx2.unsignedBytes tx2.ins creds2 0
          (by omega) (by omega) hloop

/-- C8 witness: the statement at the concrete credential/input lists — one
credential over two inputs (address of input 1 rewritten to 42), and one
credential over zero inputs. -/
theorem c8_credential_count_mismatch_witness :
    credsW.length ≤ 1 ∧ txW2.ins.length < credsW.length ∧
    (semCredLoop cmW [] (setInsAddr txW.ins 1 42) credsW 0 =
        semCredLoop cmW [] txW.ins credsW 0 ∧
     decide (exportSemanticVerify cmW ivTrue ctxW txW2 credsW = .ok) = false ∧
     exportSemanticVerify cmW ivTrue ctxW txW credsW = .ok ∧
     exportSemanticVerify cmW ivTrue ctxW txW2 credsW = .panicked) :=
  ⟨by decide, by decide,
   c8_credential_count_mismatch cmW [] txW.ins credsW 1 42 ivTrue ctxW txW2 credsW
     (by decide) (by decide)⟩
